import Mathlib

/-!
Verification development for the form-state repository: a shallow embedding
of the scoped path-resolution, structural diffing, scope-collection and
event-ordering engine (src/formHelp core, src/form/context.ts) and the
reducer-pipeline action store (src/action-store/core.ts), together with
theorems settling the frozen behavioural claims.

JSON-like runtime values are modelled by `JVal` (objects as insertion-ordered
association lists, mirroring JS own-property enumeration for the non-numeric
keys used throughout this code base; no prototype chain or string indexing is
modelled). `JSON.parse(JSON.stringify(x))` (`jsonClone`) is the identity on
values, so cloning is modelled by reusing the value; object *identity* is
modelled explicitly where a claim depends on it (`JRef` for the action store,
the alias flag of `FHCtx` for the document context).
-/

namespace FormState

/-- JSON-compatible runtime value, plus the JS `undefined`. -/
inductive JVal where
  | null : JVal
  | undefined : JVal
  | bool : Bool → JVal
  | num : Int → JVal
  | str : String → JVal
  | arr : List JVal → JVal
  | obj : List (String × JVal) → JVal
  deriving Repr

mutual

def JVal.beq : JVal → JVal → Bool
  | .null, .null => true
  | .undefined, .undefined => true
  | .bool a, .bool b => a == b
  | .num a, .num b => a == b
  | .str a, .str b => a == b
  | .arr a, .arr b => JVal.beqList a b
  | .obj a, .obj b => JVal.beqFields a b
  | _, _ => false

def JVal.beqList : List JVal → List JVal → Bool
  | [], [] => true
  | a :: as, b :: bs => JVal.beq a b && JVal.beqList as bs
  | _, _ => false

def JVal.beqFields : List (String × JVal) → List (String × JVal) → Bool
  | [], [] => true
  | (ka, va) :: as, (kb, vb) :: bs => ka == kb && JVal.beq va vb && JVal.beqFields as bs
  | _, _ => false

end

mutual

theorem JVal.beq_iff : ∀ a b : JVal, JVal.beq a b = true ↔ a = b
  | .null, b => by cases b <;> simp [JVal.beq]
  | .undefined, b => by cases b <;> simp [JVal.beq]
  | .bool x, b => by cases b <;> simp [JVal.beq]
  | .num x, b => by cases b <;> simp [JVal.beq]
  | .str x, b => by cases b <;> simp [JVal.beq]
  | .arr xs, b => by
      cases b <;> simp [JVal.beq]
      exact JVal.beqList_iff xs _
  | .obj fs, b => by
      cases b <;> simp [JVal.beq]
      exact JVal.beqFields_iff fs _

theorem JVal.beqList_iff : ∀ a b : List JVal, JVal.beqList a b = true ↔ a = b
  | [], b => by cases b <;> simp [JVal.beqList]
  | x :: xs, b => by
      cases b with
      | nil => simp [JVal.beqList]
      | cons y ys =>
        simp [JVal.beqList, JVal.beq_iff x y, JVal.beqList_iff xs ys]

theorem JVal.beqFields_iff : ∀ a b : List (String × JVal), JVal.beqFields a b = true ↔ a = b
  | [], b => by cases b <;> simp [JVal.beqFields]
  | (k, v) :: xs, b => by
      cases b with
      | nil => simp [JVal.beqFields]
      | cons y ys =>
        obtain ⟨k2, v2⟩ := y
        simp [JVal.beqFields, JVal.beq_iff v v2, JVal.beqFields_iff xs ys, and_assoc]

end

instance : DecidableEq JVal := fun a b =>
  decidable_of_iff (JVal.beq a b = true) (JVal.beq_iff a b)

/-- `s.split(sep)` on the character list: JS semantics, so splitting the empty
string yields `[""]` and adjacent separators yield empty segments. -/
def splitCharAux (sep : Char) : List Char → List (List Char)
  | [] => [[]]
  | c :: cs =>
      match splitCharAux sep cs with
      | [] => [[]]
      | g :: gs => if c = sep then [] :: g :: gs else (c :: g) :: gs

/-- JS `String.prototype.split` with a one-character separator. -/
def jsSplit (s : String) (sep : Char) : List String :=
  (splitCharAux sep s.toList).map (fun l => String.mk l)

/-- Decimal value of a digit list. -/
def jsDigitsToNat (cs : List Char) : Nat :=
  cs.foldl (fun n c => n * 10 + (c.toNat - 48)) 0

/-- A property key viewed as an array index: a non-empty all-digit string. -/
def jsKeyToNat (s : String) : Option Nat :=
  if s.toList ≠ [] ∧ s.toList.all Char.isDigit then some (jsDigitsToNat s.toList)
  else none

/-- Lexicographic order on character lists (JS `<` on strings). -/
def charListLt : List Char → List Char → Bool
  | [], [] => false
  | [], _ :: _ => true
  | _ :: _, [] => false
  | a :: as, b :: bs => if a < b then true else if b < a then false else charListLt as bs

/-- JS `a < b` on strings. -/
def strLt (a b : String) : Bool := charListLt a.toList b.toList

/-- JS `a <= b` on strings. -/
def strLe (a b : String) : Bool := strLt a b || a == b

/-- JS truthiness on runtime values. -/
def jsTruthy : JVal → Bool
  | .null => false
  | .undefined => false
  | .bool b => b
  | .num n => n != 0
  | .str s => s ≠ ""
  | .arr _ => true
  | .obj _ => true

/-- First-match lookup in an insertion-ordered field list; `undefined` when absent
(JS property read of a missing key). -/
def lookupField : List (String × JVal) → String → JVal
  | [], _ => .undefined
  | (k, v) :: fs, key => if k = key then v else lookupField fs key

/-- Property read `v[key]`: objects by key, arrays by numeric index, `undefined`
otherwise (no prototype chain or string indexing modelled). -/
def jsGetProp : JVal → String → JVal
  | .obj fs, key => lookupField fs key
  | .arr xs, key =>
      match jsKeyToNat key with
      | some i => xs.getD i .undefined
      | none => .undefined
  | _, _ => .undefined

/-- Overwrite-or-append preserving JS own-property insertion order. -/
def setField : List (String × JVal) → String → JVal → List (String × JVal)
  | [], key, v => [(key, v)]
  | (k, w) :: fs, key, v =>
      if k = key then (k, v) :: fs else (k, w) :: setField fs key v

/-- `delete obj[key]`. -/
def delField : List (String × JVal) → String → List (String × JVal)
  | [], _ => []
  | (k, w) :: fs, key => if k = key then fs else (k, w) :: delField fs key

/-- `arr[i] = v`, padding with `undefined` holes as JS does for out-of-range writes. -/
def listSetPad : List JVal → Nat → JVal → List JVal
  | [], 0, v => [v]
  | [], n + 1, v => .undefined :: listSetPad [] n v
  | _ :: rest, 0, v => v :: rest
  | x :: rest, n + 1, v => x :: listSetPad rest n v

/-- Errors a resolve call can raise: the unnamed-array grammar error thrown by
`getDataByPath`, and strict-mode type faults (writing a property through a
non-object, or calling `push` on a non-array). -/
inductive RErr where
  | unnamedArray (component path : String)
  | typeFault (msg : String)
  deriving Repr, DecidableEq

/-- Property write `v[key] = x`. Strict-mode JS throws when the base is not an
object; array writes accept numeric indices (non-numeric keys on arrays are a
modelling boundary, classified as a type fault). -/
def jsSetProp : JVal → String → JVal → Except RErr JVal
  | .obj fs, key, v => .ok (.obj (setField fs key v))
  | .arr xs, key, v =>
      match jsKeyToNat key with
      | some i => .ok (.arr (listSetPad xs i v))
      | none => .error (.typeFault "array keyed write not modelled")
  | _, _, _ => .error (.typeFault "cannot create property on non-object")

/-- Total property write used inside mutation callbacks, which in this code
base always receive object nodes; a non-object base is left unchanged. -/
def jsSetPropT (v : JVal) (key : String) (x : JVal) : JVal :=
  match jsSetProp v key x with
  | .ok r => r
  | .error _ => v

/-- Total `delete ptr[key]` for callbacks. -/
def jsDelPropT : JVal → String → JVal
  | .obj fs, key => .obj (delField fs key)
  | v, _ => v

/-- Model of JS `parseInt` on bracket contents: optional leading spaces and
sign, then a longest decimal-digit prefix; `none` is `NaN`. -/
def jsParseInt (s : String) : Option Int :=
  let cs := s.toList.dropWhile (fun c => c = ' ')
  match cs with
  | '-' :: rest =>
      let digits := rest.takeWhile Char.isDigit
      if digits = [] then none else some (-(jsDigitsToNat digits : Int))
  | '+' :: rest =>
      let digits := rest.takeWhile Char.isDigit
      if digits = [] then none else some (jsDigitsToNat digits : Int)
  | _ =>
      let digits := cs.takeWhile Char.isDigit
      if digits = [] then none else some (jsDigitsToNat digits : Int)

/-- An individual component in a `/`-separated path (formHelp `PathComponent`). -/
structure PathComponent where
  name : String
  isArray : Bool
  index : Option Int
  key : Option String
  deriving Repr, DecidableEq

/-- Convert raw path component to its parts (formHelp `parsePathComponent`):
`name` / `name[]` / `name[0]` / `name[alpha]` / `[alpha]`. -/
def parsePathComponent (component : String) : PathComponent :=
  let parts := jsSplit component '['
  let name := parts.headD ""
  let restIndex := (parts.drop 1).headD ""
  if restIndex ≠ "" then
    let rawIndex := (jsSplit restIndex ']').headD ""
    if rawIndex ≠ "" then
      match jsParseInt rawIndex with
      | none => { name := name, isArray := false, index := none, key := some rawIndex }
      | some i => { name := name, isArray := true, index := some i, key := none }
    else { name := name, isArray := true, index := none, key := none }
  else { name := name, isArray := false, index := none, key := none }

/-- The creation step at one component: `if (name && !ptr[name])` create `[]`
or `{}` under `name`, returning the updated node. -/
def stepCreate (cur : JVal) (pc : PathComponent) : Except RErr JVal :=
  if pc.name ≠ "" ∧ jsTruthy (jsGetProp cur pc.name) = false then
    jsSetProp cur pc.name (if pc.isArray then .arr [] else .obj [])
  else .ok cur

/-- `if (!target[key]) target[key] = {}` for keyed components. -/
def stepEnsureKey (target : JVal) (k : String) : Except RErr JVal :=
  if jsTruthy (jsGetProp target k) = false then jsSetProp target k (.obj []) else .ok target

/-- The body of one (non-empty, non-`.`) component of the `getDataByPath`
walk: grammar check, creation, descent into the selected child via `recurse`
(the walk over the remaining components) and writeback of the mutated child. -/
def resolveStepA (fullPath : String) (recurse : JVal → Except RErr (JVal × JVal))
    (c : String) (cur : JVal) : Except RErr (JVal × JVal) :=
  let pc := parsePathComponent c
  if pc.name = "" ∧ pc.isArray then .error (.unnamedArray c fullPath)
  else
    match stepCreate cur pc with
    | .error e => .error e
    | .ok cur1 =>
      let target := if pc.name = "" then cur1 else jsGetProp cur1 pc.name
      if pc.isArray then
        match pc.index with
        | some i =>
          let ikey := toString i
          let t0 := jsGetProp target ikey
          let t1 := if t0 = .null ∨ t0 = .undefined then .obj [] else t0
          match jsSetProp target ikey t1 with
          | .error e => .error e
          | .ok target1 =>
            match recurse (jsGetProp target1 ikey) with
            | .error e => .error e
            | .ok (child, leaf) =>
              match jsSetProp target1 ikey child with
              | .error e => .error e
              | .ok target2 =>
                match jsSetProp cur1 pc.name target2 with
                | .error e => .error e
                | .ok cur2 => .ok (cur2, leaf)
        | none =>
          match target with
          | .arr xs =>
            match recurse (.obj []) with
            | .error e => .error e
            | .ok (child, leaf) =>
              match jsSetProp cur1 pc.name (.arr (xs ++ [child])) with
              | .error e => .error e
              | .ok cur2 => .ok (cur2, leaf)
          | _ => .error (.typeFault "push on non-array")
      else
        match pc.key with
        | some k =>
          match stepEnsureKey target k with
          | .error e => .error e
          | .ok target1 =>
            match recurse (jsGetProp target1 k) with
            | .error e => .error e
            | .ok (child, leaf) =>
              match jsSetProp target1 k child with
              | .error e => .error e
              | .ok target2 =>
                match (if pc.name = "" then Except.ok target2
                    else jsSetProp cur1 pc.name target2) with
                | .error e => .error e
                | .ok cur2 => .ok (cur2, leaf)
        | none =>
          match recurse target with
          | .error e => .error e
          | .ok (child, leaf) =>
            match (if pc.name = "" then Except.ok child
                else jsSetProp cur1 pc.name child) with
            | .error e => .error e
            | .ok cur2 => .ok (cur2, leaf)

/-- The traversal loop of formHelp `getDataByPath` over the split components.
`cur` is the node the pointer `ptr` currently designates; mutations through the
pointer are modelled by rebuilding the node on the way back up, and the final
callback `fn` is applied to the leaf. Returns the updated root together with
the resolved leaf (the function's return value). -/
def resolveComps (fullPath : String) (fn : JVal → JVal) :
    List String → JVal → Except RErr (JVal × JVal)
  | [], cur => .ok (fn cur, fn cur)
  | c :: rest, cur =>
    if c = "" then .ok (fn cur, fn cur)
    else if c = "." then resolveComps fullPath fn rest cur
    else resolveStepA fullPath (fun child => resolveComps fullPath fn rest child) c cur

/-- formHelp `getDataByPath`: split on `/`, walk/create, apply the optional
mutation callback at the resolved node. -/
def getDataByPath (data : JVal) (path : String) (fn : JVal → JVal) :
    Except RErr (JVal × JVal) :=
  resolveComps path fn (jsSplit path '/') data

/-! ### Structural differ (formHelp `computeDiff` / `computeArrayDiff`) -/

/-- `typeof v === "object"`: true for objects, arrays and `null`. -/
def jsTypeofObject : JVal → Bool
  | .null => true
  | .arr _ => true
  | .obj _ => true
  | _ => false

/-- `v instanceof Array`. -/
def jsIsArray : JVal → Bool
  | .arr _ => true
  | _ => false

def jsArrElems : JVal → List JVal
  | .arr xs => xs
  | _ => []

/-- JS strict equality `===` restricted to the comparisons this differ can
reach: scalar values by value; an object or array node compares unequal to
anything (the differ only strict-compares an object node against a value of a
different runtime type, or distinct freshly built nodes). -/
def jsStrictEq : JVal → JVal → Bool
  | .null, .null => true
  | .undefined, .undefined => true
  | .bool a, .bool b => a == b
  | .num a, .num b => a == b
  | .str a, .str b => a == b
  | _, _ => false

/-- `Object.keys`: own enumerable keys in insertion order for objects, index
strings for arrays, empty otherwise. -/
def jsKeys : JVal → List String
  | .obj fs => fs.map (fun f => f.1)
  | .arr xs => (List.range xs.length).map toString
  | _ => []

def insertIfAbsent (l : List String) (s : String) : List String :=
  if s ∈ l then l else l ++ [s]

/-- formHelp `mergeArrays`: ordered set union through an `examined` record. -/
def mergeArrays (arr1 arr2 : List String) : List String :=
  (arr1 ++ arr2).foldl insertIfAbsent []

/-- A pair `(oldValue, newValue)` for one changed path. -/
abbrev DiffEntry := JVal × JVal

structure DiffResults where
  hasDiff : Bool
  diffs : List (String × DiffEntry)
  deriving Repr, DecidableEq

/-- Record assignment `diffs[key] = entry`: overwrite in place or append. -/
def setDiffKey : List (String × DiffEntry) → String → DiffEntry → List (String × DiffEntry)
  | [], key, v => [(key, v)]
  | (k, w) :: fs, key, v =>
      if k = key then (k, v) :: fs else (k, w) :: setDiffKey fs key v

/-- `oval.length > nval.length ? oval.length : nval.length` from
`computeArrayDiff`. -/
def jsMaxLen (oval nval : List JVal) : Nat :=
  if oval.length > nval.length then oval.length else nval.length

mutual

def jsize : JVal → Nat
  | .arr xs => 1 + jsizeL xs
  | .obj fs => 1 + jsizeF fs
  | _ => 1

def jsizeL : List JVal → Nat
  | [] => 0
  | x :: xs => jsize x + jsizeL xs

def jsizeF : List (String × JVal) → Nat
  | [] => 0
  | (_, v) :: fs => 1 + jsize v + jsizeF fs

end

theorem jsize_pos (v : JVal) : 0 < jsize v := by
  cases v <;> simp [jsize]

theorem jsize_getD_le (xs : List JVal) :
    ∀ i, jsTypeofObject (xs.getD i .undefined) = true → jsize (xs.getD i .undefined) ≤ jsizeL xs := by
  induction xs with
  | nil => intro i h; simp [List.getD, jsTypeofObject] at h
  | cons x xs ih =>
    intro i h
    have hx : jsizeL (x :: xs) = jsize x + jsizeL xs := rfl
    cases i with
    | zero =>
      rw [List.getD_cons_zero] at h ⊢
      omega
    | succ n =>
      rw [List.getD_cons_succ] at h ⊢
      have := ih n h
      omega

theorem jsize_lookupField_lt (fs : List (String × JVal)) (k : String) :
    jsTypeofObject (lookupField fs k) = true → jsize (lookupField fs k) < 1 + jsizeF fs := by
  induction fs with
  | nil => intro h; simp [lookupField, jsTypeofObject] at h
  | cons f fs ih =>
    obtain ⟨k2, v⟩ := f
    intro h
    simp only [lookupField] at h ⊢
    by_cases hk : k2 = k
    · simp [hk] at h ⊢; simp [jsizeF]; omega
    · simp [hk] at h ⊢
      have := ih h
      simp [jsizeF]
      omega

theorem jsize_getProp_lt (v : JVal) (k : String) :
    jsTypeofObject (jsGetProp v k) = true → jsize (jsGetProp v k) < jsize v := by
  cases v with
  | obj fs =>
    intro h
    simp only [jsGetProp] at h ⊢
    have := jsize_lookupField_lt fs k h
    simpa [jsize] using this
  | arr xs =>
    intro h
    cases hkey : jsKeyToNat k with
    | none =>
      rw [show jsGetProp (JVal.arr xs) k = JVal.undefined from by simp [jsGetProp, hkey]] at h
      simp [jsTypeofObject] at h
    | some i =>
      rw [show jsGetProp (JVal.arr xs) k = xs.getD i JVal.undefined from by
        simp [jsGetProp, hkey]] at h ⊢
      have := jsize_getD_le xs i h
      have hx : jsize (JVal.arr xs) = 1 + jsizeL xs := rfl
      omega
  | null => intro h; simp [jsGetProp, jsTypeofObject] at h
  | undefined => intro h; simp [jsGetProp, jsTypeofObject] at h
  | bool b => intro h; simp [jsGetProp, jsTypeofObject] at h
  | num n => intro h; simp [jsGetProp, jsTypeofObject] at h
  | str s => intro h; simp [jsGetProp, jsTypeofObject] at h

theorem jsize_isArray (v : JVal) (h : jsIsArray v = true) :
    jsize v = 1 + jsizeL (jsArrElems v) := by
  cases v <;> simp [jsIsArray] at h <;> simp [jsize, jsArrElems]

theorem jsIsArray_typeofObject (v : JVal) (h : jsIsArray v = true) :
    jsTypeofObject v = true := by
  cases v <;> simp [jsIsArray] at h <;> simp [jsTypeofObject]

mutual

/-- formHelp `computeDiff`: deep traverse of two values registering changed
leaf paths into the accumulating `DiffResults`. Note the "exactly one null"
base case records an entry without touching `hasDiff`, exactly as the source
does. -/
def computeDiff (oval nval : JVal) (curpath : String) (curdiff : DiffResults) :
    DiffResults :=
  let pfx := if curpath ≠ "" then curpath ++ "/" else ""
  if oval = .null ∧ nval = .null then curdiff
  else if oval = .null ∨ nval = .null then
    { curdiff with diffs := setDiffKey curdiff.diffs curpath (oval, nval) }
  else diffKeys oval nval pfx (mergeArrays (jsKeys oval) (jsKeys nval)) curdiff
termination_by (jsize oval + jsize nval, 2, 0)
decreasing_by
  apply Prod.Lex.right
  apply Prod.Lex.left
  omega

/-- The per-key body of `computeDiff`'s for-loop over the merged key set. -/
def diffKeys (oval nval : JVal) (pfx : String) (keys : List String)
    (cur : DiffResults) : DiffResults :=
  match keys with
  | [] => cur
  | k :: rest =>
    let ov := jsGetProp oval k
    let nv := jsGetProp nval k
    let cur1 :=
      if h1 : jsIsArray ov = true ∧ jsIsArray nv = true then
        let arrdiff := computeArrayDiff (jsArrElems ov) (jsArrElems nv)
        if arrdiff.hasDiff then
          { hasDiff := true
            diffs := arrdiff.diffs.foldl
              (fun d e => setDiffKey d (pfx ++ k ++ e.1) e.2) cur.diffs }
        else cur
      else if h2 : jsTypeofObject ov = true ∧ jsTypeofObject nv = true then
        computeDiff ov nv (pfx ++ k) cur
      else if jsStrictEq ov nv = false then
        { hasDiff := true, diffs := setDiffKey cur.diffs (pfx ++ k) (ov, nv) }
      else cur
    diffKeys oval nval pfx rest cur1
termination_by (jsize oval + jsize nval, 1, keys.length)
decreasing_by
  · apply Prod.Lex.left
    unfold_let ov nv at h1
    have t1 := jsIsArray_typeofObject _ h1.1
    have t2 := jsIsArray_typeofObject _ h1.2
    have ho := jsize_getProp_lt oval k t1
    have hn := jsize_getProp_lt nval k t2
    have ho2 := jsize_isArray _ h1.1
    have hn2 := jsize_isArray _ h1.2
    omega
  · apply Prod.Lex.left
    unfold_let ov nv at h2
    have ho := jsize_getProp_lt oval k h2.1
    have hn := jsize_getProp_lt nval k h2.2
    omega
  · apply Prod.Lex.right
    apply Prod.Lex.right
    simp

/-- formHelp `computeArrayDiff`: pairwise index comparison up to the longer
length. -/
def computeArrayDiff (oval nval : List JVal) : DiffResults :=
  let (d, errs) :=
    arrayIdxLoop oval nval (jsMaxLen oval nval) 0 { hasDiff := false, diffs := [] } 0
  { d with hasDiff := errs ≠ 0 }
termination_by (2 + jsizeL oval + jsizeL nval, 0, jsMaxLen oval nval + 1)
decreasing_by
  apply Prod.Lex.right
  apply Prod.Lex.right
  omega

/-- The index loop of `computeArrayDiff`, threading the entry list and the
error counter. -/
def arrayIdxLoop (oval nval : List JVal) (mx : Nat) (i : Nat)
    (cur : DiffResults) (errs : Nat) : DiffResults × Nat :=
  if hlt : i < mx then
    let ov := oval.getD i .undefined
    let nv := nval.getD i .undefined
    let step :=
      if hobj : jsTruthy ov = true ∧ jsTypeofObject ov = true ∧
          jsTruthy nv = true ∧ jsTypeofObject nv = true then
        let idiff := computeDiff ov nv "" { hasDiff := false, diffs := [] }
        if idiff.hasDiff then
          ({ cur with diffs :=
              setDiffKey cur.diffs ("[" ++ toString i ++ "]") (ov, nv) }, errs + 1)
        else (cur, errs)
      else if jsStrictEq ov nv = false then
        ({ cur with diffs :=
            setDiffKey cur.diffs ("[" ++ toString i ++ "]") (ov, nv) }, errs + 1)
      else (cur, errs)
    arrayIdxLoop oval nval mx (i + 1) step.1 step.2
  else (cur, errs)
termination_by (2 + jsizeL oval + jsizeL nval, 0, mx - i)
decreasing_by
  · apply Prod.Lex.left
    unfold_let ov nv at hobj
    have ho := jsize_getD_le oval i hobj.2.1
    have hn := jsize_getD_le nval i hobj.2.2.2
    omega
  · apply Prod.Lex.right
    apply Prod.Lex.right
    omega

end

/-! ### Scope collector (context.ts `makeScopeCollector`, utils `sortString`) -/

/-- utils `sortString` restricted to defined strings (the comparator in
`getScopes` only ever compares recorded scope strings). -/
def sortString (a b : String) : Int :=
  if a = b then 0 else if strLt a b then -1 else if strLt b a then 1 else 0

/-- `joinScopes`: drop falsy and `.` segments, join with `/`. -/
def joinScopes (parts : List String) : String :=
  String.intercalate "/" (parts.filter (fun s => s ≠ "" ∧ s ≠ "."))

/-- Test of the regex `\[.*\]$`: the string ends in `]` with some `[` before it. -/
def endsWithBracketPat (s : String) : Bool :=
  (s.toList.getLast? == some ']') && s.toList.dropLast.contains '['

/-- `s.replace(/\[.*\]$/, '')`: cut from the leftmost `[` (the regex match runs
to the final `]`). -/
def stripBracketSuffix (s : String) : String :=
  String.mk (s.toList.takeWhile (fun c => c ≠ '['))

/-- The `while (parts.length > 0)` loop of `addScope`, threading the recorded
scope set `q` (insertion-ordered, as JS object keys) and the resolved `path`.
Each iteration pops the last segment, so the loop is phrased structurally over
the reversed segment list: the head of `rev` is the last segment of the
current `parts = rev.reverse`. -/
def addScopeLoop (nm : String) : List String → List String → String → List String × String
  | [], q, path => (q, path)
  | x :: revRest, q, path =>
      let s := String.intercalate "/" (x :: revRest).reverse
      let q1 := insertIfAbsent q s
      if path = "" then
        let q2 :=
          if nm ≠ "" then insertIfAbsent q1 (String.intercalate "/" revRest.reverse ++ "/*")
          else q1
        addScopeLoop nm revRest q2 s
      else
        let q2 :=
          if endsWithBracketPat s then insertIfAbsent q1 (stripBracketSuffix s ++ "/*") else q1
        addScopeLoop nm revRest q2 path

/-- `makeScopeCollector().addScope(scope, name?)`: record the joined path and
every ancestor, plus the `parent/*` wildcard of the full path when a name was
given and the `arrayParent/*` wildcard for bracketed ancestors. Returns the
updated record and the fully resolved path. -/
def addScope (q : List String) (scope nm : String) : List String × String :=
  let parts := (jsSplit (joinScopes [scope, nm]) '/').filter (fun s => s ≠ "" ∧ s ≠ ".")
  addScopeLoop nm parts.reverse q ""

theorem string_toList_inj : ∀ {a b : String}, a.toList = b.toList → a = b := by
  intro a b h
  cases a with | mk da =>
  cases b with | mk db =>
  have h2 : da = db := h
  rw [h2]

theorem charListLt_trichotomy : ∀ as bs : List Char,
    charListLt as bs = true ∨ charListLt bs as = true ∨ as = bs
  | [], [] => Or.inr (Or.inr rfl)
  | [], _ :: _ => Or.inl (by simp [charListLt])
  | _ :: _, [] => Or.inr (Or.inl (by simp [charListLt]))
  | a :: as, b :: bs => by
      rcases lt_trichotomy a b with h | h | h
      · left; simp [charListLt, h]
      · subst h
        rcases charListLt_trichotomy as bs with h2 | h2 | h2
        · left; simp [charListLt, h2]
        · right; left; simp [charListLt, h2]
        · right; right; rw [h2]
      · right; left; simp [charListLt, h]

theorem charListLt_trans : ∀ as bs cs : List Char,
    charListLt as bs = true → charListLt bs cs = true → charListLt as cs = true := by
  intro as
  induction as with
  | nil =>
    intro bs cs hab hbc
    cases bs with
    | nil => simp [charListLt] at hab
    | cons b bs =>
      cases cs with
      | nil => simp [charListLt] at hbc
      | cons c cs => simp [charListLt]
  | cons a as ih =>
    intro bs cs hab hbc
    cases bs with
    | nil => simp [charListLt] at hab
    | cons b bs =>
      cases cs with
      | nil => simp [charListLt] at hbc
      | cons c cs =>
        simp only [charListLt] at hab hbc ⊢
        rcases lt_trichotomy a b with h1 | h1 | h1
        · rcases lt_trichotomy b c with h2 | h2 | h2
          · simp [lt_trans h1 h2]
          · subst h2; simp [h1]
          · rw [if_neg (lt_asymm h2), if_pos h2] at hbc
            exact absurd hbc (by simp)
        · subst h1
          rw [if_neg (lt_irrefl a), if_neg (lt_irrefl a)] at hab
          rcases lt_trichotomy a c with h2 | h2 | h2
          · simp [h2]
          · subst h2
            rw [if_neg (lt_irrefl a), if_neg (lt_irrefl a)] at hbc ⊢
            exact ih bs cs hab hbc
          · rw [if_neg (lt_asymm h2), if_pos h2] at hbc
            exact absurd hbc (by simp)
        · rw [if_neg (lt_asymm h1), if_pos h1] at hab
          exact absurd hab (by simp)

theorem strLe_total (a b : String) : strLe a b = true ∨ strLe b a = true := by
  rcases charListLt_trichotomy a.toList b.toList with h | h | h
  · left; unfold strLe strLt; rw [h]; rfl
  · right; unfold strLe strLt; rw [h]; rfl
  · left
    have hab : a = b := string_toList_inj h
    subst hab
    unfold strLe
    simp

theorem strLe_trans {a b c : String} (h1 : strLe a b = true) (h2 : strLe b c = true) :
    strLe a c = true := by
  unfold strLe strLt at h1 h2 ⊢
  cases hl1 : charListLt a.toList b.toList with
  | true =>
    cases hl2 : charListLt b.toList c.toList with
    | true => rw [charListLt_trans _ _ _ hl1 hl2]; rfl
    | false =>
      rw [hl2] at h2
      have hbc : b = c := by
        have hb : (b == c) = true := by simpa using h2
        exact eq_of_beq hb
      subst hbc
      rw [hl1]; rfl
  | false =>
    rw [hl1] at h1
    have hab : a = b := by
      have hb : (a == b) = true := by simpa using h1
      exact eq_of_beq hb
    subst hab
    exact h2

/-- The sort order of `getScopes()`: longer strings first, ties by
lexicographic ascending (`sortString`). -/
def scopeLe (a b : String) : Prop :=
  b.length < a.length ∨ (a.length = b.length ∧ strLe a b = true)

instance : DecidableRel scopeLe := fun a b => by
  unfold scopeLe; infer_instance

instance : IsTotal String scopeLe where
  total a b := by
    unfold scopeLe
    rcases Nat.lt_trichotomy a.length b.length with h | h | h
    · right; left; exact h
    · rcases strLe_total a b with hab | hab
      · left; right; exact ⟨h, hab⟩
      · right; right; exact ⟨h.symm, hab⟩
    · left; left; exact h

instance : IsTrans String scopeLe where
  trans a b c hab hbc := by
    unfold scopeLe at hab hbc ⊢
    rcases hab with h1 | ⟨h1, h1le⟩ <;> rcases hbc with h2 | ⟨h2, h2le⟩
    · left; omega
    · left; omega
    · left; omega
    · right; exact ⟨by omega, strLe_trans h1le h2le⟩

/-- `getScopes()`: the recorded scopes sorted by the comparator
(descending length, then `sortString`). -/
def getScopes (q : List String) : List String :=
  List.insertionSort scopeLe q

/-! ### Document context (src/form/context.ts `makeFHContext`) -/

/-- The state of one `makeFHContext` closure. `dataVar` is the `data` constant
captured at construction. `refSeparate = none` models the construction-time
aliasing `ref.data === data`; after `reset()` reassigns `ref.data`,
`refSeparate = some v` holds the now-distinct current document. -/
structure FHCtx where
  dataVar : JVal
  refSeparate : Option JVal
  refInitial : JVal
  changelog : List DiffResults
  deriving Repr, DecidableEq

/-- The current value of `ref.data`. -/
def refDataValue (ctx : FHCtx) : JVal :=
  match ctx.refSeparate with
  | none => ctx.dataVar
  | some v => v

/-- Mutation through `ref.data`: pre-reset it hits the shared `data` object,
post-reset the separate document. -/
def writeRefData (ctx : FHCtx) (v : JVal) : FHCtx :=
  match ctx.refSeparate with
  | none => { ctx with dataVar := v }
  | some _ => { ctx with refSeparate := some v }

/-- `getData()` returns `{...ref.data}` (same value). -/
def getData (ctx : FHCtx) : JVal := refDataValue ctx

/-- `getInitial()` returns `{...ref.initialData}`. -/
def getInitial (ctx : FHCtx) : JVal := ctx.refInitial

/-- `makeFHContext({data, initialData?})`: both deep-copied; `ref.data`
aliases the `data` constant. -/
def makeFHContext (data : JVal) (initialData : Option JVal) : FHCtx :=
  { dataVar := data
    refSeparate := none
    refInitial := initialData.getD data
    changelog := [] }

/-- `triggerUpdate(diff)`: no-op without `hasDiff`; otherwise push the diff on
the changelog and return the sequence of topics emitted on the scoped update
bus: one per changed leaf path, then every collected scope
(most specific first), then the wildcard `*`. -/
def triggerUpdate (ctx : FHCtx) (diff : DiffResults) : FHCtx × List String :=
  if diff.hasDiff = false then (ctx, [])
  else
    let ctx1 := { ctx with changelog := ctx.changelog ++ [diff] }
    let fieldTopics := diff.diffs.map (fun e => e.1)
    let q := diff.diffs.foldl
      (fun q e =>
        let parts := jsSplit e.1 '/'
        let scope := String.intercalate "/" parts.dropLast
        if scope ≠ "" ∧ scope ≠ "." then (addScope q scope "").1 else q)
      []
    (ctx1, fieldTopics ++ getScopes q ++ ["*"])

/-- `setControlValue(name, value, scope)` (the context's `update`): clone
`ref.data`, set `ptr[name] = value` at `scope`, then diff the whole old
document against the whole new document with `scope` as the path prefix and
run the cascade. -/
def setControlValue (ctx : FHCtx) (nm : String) (val : JVal) (scope : String) :
    Except RErr (FHCtx × List String) :=
  let odata := refDataValue ctx
  match getDataByPath (refDataValue ctx) scope (fun v => jsSetPropT v nm val) with
  | .error e => .error e
  | .ok (root, _) =>
    let ctx1 := writeRefData ctx root
    .ok (triggerUpdate ctx1 (computeDiff odata root scope { hasDiff := false, diffs := [] }))

/-- `updateControlValue({scope, name, value, isArray, isArrRemove})`: operates
on the captured `data` constant (not `ref.data`). `value = none` models
`undefined` and deletes the key (diff scoped); otherwise assign or
append/remove in array mode (diff unscoped). -/
def updateControlValue (ctx : FHCtx) (scope nm : String) (value : Option JVal)
    (isArr isArrRemove : Bool) : Except RErr (FHCtx × List String) :=
  let odata := ctx.dataVar
  match value with
  | none =>
    match getDataByPath ctx.dataVar scope (fun v => jsDelPropT v nm) with
    | .error e => .error e
    | .ok (root, _) =>
      let ctx1 := { ctx with dataVar := root }
      .ok (triggerUpdate ctx1 (computeDiff odata root scope { hasDiff := false, diffs := [] }))
  | some val =>
    let fn := fun v =>
      if isArr then
        let cur0 := jsGetProp v nm
        let cur1 := if jsTruthy cur0 = false then JVal.arr [] else cur0
        let cur2 :=
          if isArrRemove then
            JVal.arr ((jsArrElems cur1).filter (fun x => jsStrictEq x val = false))
          else JVal.arr (jsArrElems cur1 ++ [val])
        jsSetPropT v nm cur2
      else jsSetPropT v nm val
    match getDataByPath ctx.dataVar scope fn with
    | .error e => .error e
    | .ok (root, _) =>
      let ctx1 := { ctx with dataVar := root }
      .ok (triggerUpdate ctx1 (computeDiff odata root "" { hasDiff := false, diffs := [] }))

/-- `setInitial(newData, scope)`: resolve `scope` inside the initial snapshot,
clone the node, diff clone against the (unmodified) node and emit the
`set-initial` event with that diff. The source never assigns `newData` onto
the node, so the argument is unused and the emitted diff is always empty. -/
def setInitial (ctx : FHCtx) (newData : List (String × JVal)) (scope : String) :
    Except RErr (FHCtx × DiffResults) :=
  match getDataByPath ctx.refInitial scope id with
  | .error e => .error e
  | .ok (root1, ptr) =>
    let diff := computeDiff ptr ptr scope { hasDiff := false, diffs := [] }
    .ok ({ ctx with refInitial := root1 }, diff)

/-- `reset()`: `ref.data = jsonClone(ref.initialData)` (breaking the aliasing
with the captured `data` constant) and emit `reset` with the new document. -/
def reset (ctx : FHCtx) : FHCtx × JVal :=
  ({ ctx with refSeparate := some ctx.refInitial }, ctx.refInitial)

/-- `resetControl(name, scope)`: resolve `scope` on `ref.data` (the callback
then clones the post-resolution document as `odata`), pull the field's value
from the initial snapshot (resolving, and so possibly creating, inside it),
assign it at the resolved node, and cascade on
`computeDiff(odata, data)` — `data` being the captured constant. -/
def resetControl (ctx : FHCtx) (nm : String) (scope : String) :
    Except RErr (FHCtx × List String) :=
  match getDataByPath (refDataValue ctx) scope id with
  | .error e => .error e
  | .ok (root1, _) =>
    match getDataByPath ctx.refInitial scope id with
    | .error e => .error e
    | .ok (initRoot, initLeaf) =>
      let newVal := jsGetProp initLeaf nm
      match getDataByPath (refDataValue ctx) scope (fun v => jsSetPropT v nm newVal) with
      | .error e => .error e
      | .ok (root2, _) =>
        let ctx1 := writeRefData { ctx with refInitial := initRoot } root2
        .ok (triggerUpdate ctx1
          (computeDiff root1 ctx1.dataVar "" { hasDiff := false, diffs := [] }))

/-! ### Action store (src/action-store/core.ts) -/

/-- A JS object reference: an identity tag plus the value it currently holds.
`jsonClone` and object spreads mint fresh identities over equal values. -/
structure JRef where
  refId : Nat
  val : JVal
  deriving Repr, DecidableEq

/-- The meta fields of an action recognised by this code base: the synthetic
`state-reset` action and `std-ops` actions with their operation maps
(`customOp` is not modelled; no claim exercises it). -/
structure StdOpsAction where
  type : String
  path : Option String
  remove : Option (List String)
  append : Option (List (String × JVal))
  setOp : Option (List (String × JVal))
  increment : Option (List (String × Int))

/-- A reducer takes the action and the state object and returns a replacement
state object or the falsy no-change sentinel. -/
abbrev StateReducer := StdOpsAction → JRef → Option JRef

/-- `ActionStoreImpl.applyReducers`: fold the reducer list, keeping the
incoming state whenever a reducer returns the sentinel. -/
def applyReducers (reducers : List StateReducer) (action : StdOpsAction)
    (ostate : JRef) : JRef :=
  reducers.foldl
    (fun nstate r =>
      match r action nstate with
      | some ts => ts
      | none => nstate)
    ostate

/-- An `ActionStoreImpl` instance: the state object, the reducer list, and a
supply of fresh object identities. -/
structure ActionStore where
  state : JRef
  reducers : List StateReducer
  nextId : Nat

/-- The `while (levels.length > 0)` loop of `cascadeEmit`, phrased
structurally over the reversed segment list (each iteration pops the last
segment). -/
def cascadeLoop : List String → List String
  | [] => []
  | x :: revRest => String.intercalate ":" (x :: revRest).reverse :: cascadeLoop revRest

/-- `cascadeEmit`: the topic sequence obtained by repeatedly dropping the last
`:`-delimited segment. -/
def cascadeTopics (event : String) : List String :=
  cascadeLoop (jsSplit event ':').reverse

/-- First-seen-order deduplication (the `sent` record in `dispatch`). -/
def dedupFirst (l : List String) : List String := l.foldl insertIfAbsent []

/-- Read `state.__innerEvents ?? []` as a string list. -/
def jsStrList : JVal → List String
  | .arr xs => xs.filterMap (fun v => match v with | .str s => some s | _ => none)
  | _ => []

/-- `ActionStoreImpl.dispatch`: clone the state, fold the reducers; only when
the result is a different object, strip the transient fields, emit each
deduplicated inner event under `action:<e>` and then the colon cascade of
`action:<type>`, and commit a fresh copy. Returns the updated store and the
emitted topic sequence. -/
def dispatch (store : ActionStore) (action : StdOpsAction) :
    ActionStore × List String :=
  let ostate : JRef := ⟨store.nextId, store.state.val⟩
  let nstate := applyReducers store.reducers action ostate
  if nstate.refId ≠ ostate.refId then
    let innerEvents := jsStrList (jsGetProp nstate.val "__innerEvents")
    let nval := jsDelPropT (jsDelPropT nstate.val "__innerEvents") "__changedKeys"
    let innerTopics := (dedupFirst innerEvents).map (fun e => "action:" ++ e)
    ({ store with state := ⟨store.nextId + 1, nval⟩, nextId := store.nextId + 2 },
      innerTopics ++ cascadeTopics ("action:" ++ action.type))
  else ({ store with nextId := store.nextId + 1 }, [])

/-- A plain `{type}` action (used by `resetState`/`updateState`). -/
def plainAction (ty : String) : StdOpsAction :=
  { type := ty, path := none, remove := none, append := none,
    setOp := none, increment := none }

/-- `ActionStoreImpl.resetState(state)`: runs the reducer pipeline on a
synthetic `state-reset` action over the *current* state (the `state` argument
is never consulted), then emits `state-reset`. -/
def resetState (store : ActionStore) (state : JVal) : ActionStore × List String :=
  let nstate := applyReducers store.reducers (plainAction "state-reset") store.state
  ({ store with state := nstate }, ["state-reset"])

/-- `standardOpsReducer` at the value level: apply `remove`, `append`,
`setOp`, `increment` to a shallow copy of the node at `path`, and if anything
changed, write the changed keys back and attach `__innerEvents` and
`__changedKeys` to a spread copy of the state. Resolution errors are not
exercised by the modelled claims and map to the no-change sentinel. -/
def standardOpsVal (action : StdOpsAction) (state : JVal) : Option JVal :=
  if action.type ≠ "std-ops" then none
  else
    let path := action.path.getD "."
    match getDataByPath state path id with
    | .error _ => none
    | .ok (stateR, ptr) =>
      let acc0 : JVal × List String × Nat := (ptr, [], 0)
      let acc1 :=
        match action.remove with
        | none => acc0
        | some ks =>
          ks.foldl
            (fun acc key =>
              if jsGetProp acc.1 key ≠ .undefined then
                (jsSetPropT acc.1 key .undefined, insertIfAbsent acc.2.1 key, acc.2.2 + 1)
              else acc)
            acc0
      let acc2 :=
        match action.append with
        | none => acc1
        | some kvs =>
          kvs.foldl
            (fun (acc : JVal × List String × Nat) (kv : String × JVal) =>
              if jsGetProp acc.1 kv.1 = .undefined then
                (jsSetPropT acc.1 kv.1 kv.2, insertIfAbsent acc.2.1 kv.1, acc.2.2 + 1)
              else acc)
            acc1
      let acc3 :=
        match action.setOp with
        | none => acc2
        | some kvs =>
          kvs.foldl
            (fun (acc : JVal × List String × Nat) (kv : String × JVal) =>
              (jsSetPropT acc.1 kv.1 kv.2, insertIfAbsent acc.2.1 kv.1, acc.2.2 + 1))
            acc2
      let acc4 :=
        match action.increment with
        | none => acc3
        | some kvs =>
          kvs.foldl
            (fun (acc : JVal × List String × Nat) (kv : String × Int) =>
              match jsGetProp acc.1 kv.1 with
              | .num n => (jsSetPropT acc.1 kv.1 (.num (n + kv.2)), acc.2.1, acc.2.2 + 1)
              | _ => acc)
            acc3
      let curVals := acc4.1
      let newKeys := acc4.2.1
      if acc4.2.2 = 0 then none
      else
        match getDataByPath stateR path (fun ptrv =>
            newKeys.foldl
              (fun p key =>
                if jsGetProp curVals key = .undefined then jsDelPropT p key
                else jsSetPropT p key (jsGetProp curVals key))
              ptrv) with
        | .error _ => none
        | .ok (nstateR, _) =>
          let events :=
            newKeys.map (fun key => "std-ops:change:" ++ path ++ ":" ++ key)
              ++ ["std-ops:change:" ++ path, "std-ops:change"]
          some (jsSetPropT
            (jsSetPropT nstateR "__innerEvents" (.arr (events.map JVal.str)))
            "__changedKeys" (.arr (newKeys.map JVal.str)))

/-- `standardOpsReducer` as a store reducer: a changed state is returned as a
fresh object. -/
def standardOpsReducer : StateReducer := fun action s =>
  (standardOpsVal action s.val).map (fun v => ⟨s.refId + 1, v⟩)

/-! ### Outcome classifiers and path predicates used by the claims -/

/-- The resolve call ended in a strict-mode type fault. -/
def isTypeFaultRes : Except RErr (JVal × JVal) → Bool
  | .error (.typeFault _) => true
  | _ => false

/-- The resolve call threw the unnamed-array grammar error. -/
def isUnnamedArrayRes : Except RErr (JVal × JVal) → Bool
  | .error (.unnamedArray _ _) => true
  | _ => false

/-- The resolve call returned normally. -/
def resIsOk : Except RErr (JVal × JVal) → Bool
  | .ok _ => true
  | _ => false

/-- A path component with empty name that is array-marked: bare `[]` or bare
`[index]`. -/
def isBareArrayComponent (c : String) : Bool :=
  decide ((parsePathComponent c).name = "") && (parsePathComponent c).isArray

/-- The path contains a bare `[]`/`[index]` component among the components
strictly before its first empty component (an empty component ends the
traversal). -/
def hasBareArrayBeforeEmpty (path : String) : Bool :=
  ((jsSplit path '/').takeWhile (fun c => c ≠ "")).any isBareArrayComponent

/-! ### Concrete instances appearing in the claim checks -/

def docAB : JVal := .obj [("a", .num 1), ("b", .obj [("c", .num 2)])]

def docAB3 : JVal := .obj [("a", .num 1), ("b", .obj [("c", .num 3)])]

def ctxC1 : FHCtx := makeFHContext docAB none

def ctxC1M : FHCtx := writeRefData ctxC1 docAB3

def diffC1 : DiffResults := computeDiff docAB docAB3 "b" { hasDiff := false, diffs := [] }

def ctxC3 : FHCtx := makeFHContext (.obj []) none

def storeC4 : ActionStore :=
  { state := ⟨0, .obj [("a", .num 1)]⟩, reducers := [], nextId := 1 }

def ctxC5 : FHCtx := (reset (makeFHContext (.obj []) none)).1

def ctxC5r : FHCtx :=
  writeRefData { ctxC5 with refInitial := .obj [("a", .obj [])] }
    (.obj [("a", .obj [("x", .undefined)])])

def diffC5r : DiffResults :=
  computeDiff (.obj [("a", .obj [])]) (.obj []) "" { hasDiff := false, diffs := [] }

def ctxC5w : FHCtx := (reset (makeFHContext (.obj [("a", .num 1)]) none)).1

def outC5 : FHCtx × List String :=
  ((updateControlValue ctxC5w "" "a" (some (.num 9)) false false).toOption).getD (ctxC5w, [])

def actC8 : StdOpsAction :=
  { type := "std-ops", path := none, remove := some ["missingKey"],
    append := none, setOp := none, increment := none }

def storeC8 : ActionStore :=
  { state := ⟨0, .obj [("a", .str "one")]⟩, reducers := [standardOpsReducer], nextId := 7 }

def actC9 : StdOpsAction :=
  { type := "std-ops", path := none, remove := none,
    append := some [("a", .str "new-a"), ("e", .str "five")],
    setOp := none, increment := none }

def storeC9 : ActionStore :=
  { state := ⟨0, .obj [("a", .str "one")]⟩, reducers := [standardOpsReducer], nextId := 1 }

/-! ## Shared evaluation and helper lemmas -/

theorem diffC1_eval :
    diffC1 = { hasDiff := true, diffs := [("b/b/c", (.num 2, .num 3))] } := by
  simp [diffC1, docAB, docAB3, computeDiff, diffKeys, mergeArrays, jsKeys, insertIfAbsent,
    jsGetProp, lookupField, jsTypeofObject, jsIsArray, jsStrictEq, setDiffKey]

theorem diffC5r_eval :
    diffC5r = { hasDiff := true, diffs := [("a", (.obj [], .undefined))] } := by
  simp [diffC5r, computeDiff, diffKeys, mergeArrays, jsKeys, insertIfAbsent, jsGetProp,
    lookupField, jsTypeofObject, jsIsArray, jsStrictEq, setDiffKey]

theorem triggerUpdate_refSeparate (c : FHCtx) (d : DiffResults) :
    (triggerUpdate c d).1.refSeparate = c.refSeparate := by
  unfold triggerUpdate
  split
  · rfl
  · rfl

/-! ## Claim theorems -/

/-- **C2** (code bug): diffing `{a:1}` against `null` records the single diff
entry at the scope prefix but leaves `hasDiff = false`, so `hasDiff` is not
true iff `diffs` is non-empty: the one-null base case of `computeDiff` never
sets the flag. -/
theorem c2_hasDiff_null_branch :
    (computeDiff (.obj [("a", .num 1)]) .null "" { hasDiff := false, diffs := [] }).hasDiff
        = false ∧
    (computeDiff (.obj [("a", .num 1)]) .null "" { hasDiff := false, diffs := [] }).diffs
        = [("", (.obj [("a", .num 1)], .null))] ∧
    (computeDiff (.obj [("a", .num 1)]) .null "" { hasDiff := false, diffs := [] }).diffs
        ≠ [] := by
  have h : computeDiff (.obj [("a", .num 1)]) .null "" { hasDiff := false, diffs := [] } =
      { hasDiff := false, diffs := [("", (.obj [("a", .num 1)], .null))] } := by
    simp [computeDiff, setDiffKey]
  rw [h]
  exact ⟨rfl, rfl, by decide⟩

/-- **C1** (code bug): on a context built over `{a:1,b:{c:2}}`,
`setControlValue('c', 3, 'b')` emits exactly the scoped-bus topic sequence
`['b/b/c', 'b/b', 'b', '*']`: the source diffs the whole old document against
the whole new document with `'b'` as path prefix, so the changed field is
registered at `'b/b/c'` and the topic `'b/c'` that
`bindToUpdatedScope(handler, 'b', 'c')` subscribes to is never emitted — those
handlers fire zero times instead of first. -/
theorem c1_setControlValue_scope_topics :
    (setControlValue ctxC1 "c" (.num 3) "b").map (fun r => r.2) =
      .ok ["b/b/c", "b/b", "b", "*"] ∧
    "b/c" ∉ ["b/b/c", "b/b", "b", "*"] := by
  constructor
  · have h1 : (setControlValue ctxC1 "c" (.num 3) "b").map (fun r => r.2) =
        .ok ((triggerUpdate ctxC1M diffC1).2) := rfl
    rw [h1, diffC1_eval]
    rfl
  · decide

/-- **C3** (code bug): `setInitial({x:1}, '.')` on a context whose initial
snapshot is `{}` leaves the snapshot unchanged (the source clones the resolved
node and diffs the clone against the untouched node, but never `Object.assign`s
`newData` onto it) and emits `set-initial` with an empty diff. -/
theorem c3_setInitial_never_assigns :
    setInitial ctxC3 [("x", .num 1)] "." =
      .ok (ctxC3, { hasDiff := false, diffs := [] }) ∧
    getInitial ctxC3 = .obj [] := by
  constructor
  · have h1 : setInitial ctxC3 [("x", .num 1)] "." =
        .ok (ctxC3, computeDiff (.obj []) (.obj []) "." { hasDiff := false, diffs := [] }) :=
      rfl
    rw [h1, show computeDiff (.obj []) (.obj []) "." { hasDiff := false, diffs := [] } =
        { hasDiff := false, diffs := [] } from by
      simp [computeDiff, diffKeys, mergeArrays, jsKeys]]
  · rfl

/-- **C4** (code bug): `resetState({b:2})` on a store holding `{a:1}` with no
reducers leaves the state `{a:1}` — the `state` argument is never consulted;
the reducer pipeline is run over the previous state with the synthetic
`state-reset` action and `state-reset` is emitted. -/
theorem c4_resetState_ignores_argument :
    (resetState storeC4 (.obj [("b", .num 2)])).1.state.val = .obj [("a", .num 1)] ∧
    (resetState storeC4 (.obj [("b", .num 2)])).2 = ["state-reset"] ∧
    (JVal.obj [("a", .num 1)]) ≠ .obj [("b", .num 2)] :=
  ⟨rfl, rfl, by decide⟩

/-- **C6**: `addScope('contact/email','primary')` followed by `getScopes()`
yields exactly `['contact/email/primary', 'contact/email/*', 'contact/email',
'contact']`; in general `getScopes` returns a permutation of the recorded
scopes sorted by descending length with lexicographic-ascending tie-break. -/
theorem c6_getScopes_order :
    getScopes (addScope [] "contact/email" "primary").1 =
      ["contact/email/primary", "contact/email/*", "contact/email", "contact"] ∧
    ∀ q : List String, (getScopes q).Perm q ∧ List.Sorted scopeLe (getScopes q) :=
  ⟨rfl, fun q => ⟨List.perm_insertionSort scopeLe q, List.sorted_insertionSort scopeLe q⟩⟩

/-- **C9**: `standardOpsReducer` on `{append:{a:'new-a', e:'five'}}` against
`{a:'one'}` leaves `a = 'one'`, adds `e = 'five'`, and produces the inner
events `std-ops:change:.:e`, `std-ops:change:.`, `std-ops:change` in exactly
that order; dispatching through the store emits them (with the `action:`
prefix) in the same order before the action-type cascade. -/
theorem c9_append_preserves_existing_key :
    standardOpsVal actC9 (.obj [("a", .str "one")]) =
      some (.obj [("a", .str "one"), ("e", .str "five"),
        ("__innerEvents", .arr [.str "std-ops:change:.:e", .str "std-ops:change:.",
          .str "std-ops:change"]),
        ("__changedKeys", .arr [.str "e"])]) ∧
    (dispatch storeC9 actC9).1.state.val = .obj [("a", .str "one"), ("e", .str "five")] ∧
    (dispatch storeC9 actC9).2 =
      ["action:std-ops:change:.:e", "action:std-ops:change:.", "action:std-ops:change",
        "action:std-ops", "action"] :=
  ⟨rfl, rfl, rfl⟩

/-- **C10**: resolving `items[]` on `{items:[]}` pushes a fresh empty object
and returns it; resolving again on the result pushes a second, so `items` has
length 2 after two resolves — push-path resolution is not idempotent. -/
theorem c10_push_path_not_idempotent :
    getDataByPath (.obj [("items", .arr [])]) "items[]" id =
      .ok (.obj [("items", .arr [.obj []])], .obj []) ∧
    getDataByPath (.obj [("items", .arr [.obj []])]) "items[]" id =
      .ok (.obj [("items", .arr [.obj [], .obj []])], .obj []) ∧
    (jsArrElems (jsGetProp (.obj [("items", .arr [.obj [], .obj []])]) "items")).length = 2 :=
  ⟨rfl, rfl, rfl⟩

/-- **C5** (counterexample): after `reset()` on a context built over `{}`,
`resetControl('x', 'a')` mutates the *current* `ref.data` (auto-creating the
`a` node while resolving), so `getData()` changes from `{}` to
`{a:{x:undefined}}` — refuting the claim that `resetControl`, like
`updateControlValue`, touches only the stale pre-reset document. -/
theorem c5_resetControl_changes_getData :
    (resetControl ctxC5 "x" "a").map (fun r => getData r.1) =
      .ok (.obj [("a", .obj [("x", .undefined)])]) ∧
    getData ctxC5 = .obj [] ∧
    (JVal.obj [("a", .obj [("x", .undefined)])]) ≠ .obj [] := by
  refine ⟨?_, rfl, by decide⟩
  have h1 : (resetControl ctxC5 "x" "a").map (fun r => getData r.1) =
      .ok (getData (triggerUpdate ctxC5r diffC5r).1) := rfl
  rw [h1, diffC5r_eval]
  rfl

/-- **C5** (amended): once `reset()` has been called (`ref.data` holds a
separate document `d`), a subsequent `updateControlValue` mutates only the
stale `data` constant captured at construction, so `getData()` is left
unchanged by the call. The original claim's extension to `resetControl` is
refuted by `c5_resetControl_changes_getData`. -/
theorem c5_updateControlValue_frame (ctx : FHCtx) (d : JVal) (scope nm : String)
    (value : Option JVal) (isArr isArrRemove : Bool) (out : FHCtx × List String)
    (hsep : ctx.refSeparate = some d)
    (hok : updateControlValue ctx scope nm value isArr isArrRemove = .ok out) :
    getData out.1 = getData ctx := by
  have hsep2 : out.1.refSeparate = some d := by
    cases value with
    | none =>
      simp only [updateControlValue] at hok
      cases hres : getDataByPath ctx.dataVar scope (fun v => jsDelPropT v nm) with
      | error e => rw [hres] at hok; exact absurd hok (by simp)
      | ok p =>
        obtain ⟨root, leaf⟩ := p
        rw [hres] at hok
        simp only [Except.ok.injEq] at hok
        rw [← hok]
        rw [triggerUpdate_refSeparate]
        exact hsep
    | some val =>
      simp only [updateControlValue] at hok
      cases hres : getDataByPath ctx.dataVar scope (fun v =>
          if isArr then
            let cur0 := jsGetProp v nm
            let cur1 := if jsTruthy cur0 = false then JVal.arr [] else cur0
            let cur2 :=
              if isArrRemove then
                JVal.arr ((jsArrElems cur1).filter (fun x => jsStrictEq x val = false))
              else JVal.arr (jsArrElems cur1 ++ [val])
            jsSetPropT v nm cur2
          else jsSetPropT v nm val) with
      | error e => rw [hres] at hok; exact absurd hok (by simp)
      | ok p =>
        obtain ⟨root, leaf⟩ := p
        rw [hres] at hok
        simp only [Except.ok.injEq] at hok
        rw [← hok]
        rw [triggerUpdate_refSeparate]
        exact hsep
  show refDataValue out.1 = refDataValue ctx
  unfold refDataValue
  rw [hsep, hsep2]

theorem c5_updateControlValue_frame_witness :
    ctxC5w.refSeparate = some (.obj [("a", .num 1)]) ∧
    updateControlValue ctxC5w "" "a" (some (.num 9)) false false = .ok outC5 ∧
    getData outC5.1 = getData ctxC5w :=
  ⟨rfl, rfl, c5_updateControlValue_frame ctxC5w (.obj [("a", .num 1)]) "" "a"
    (some (.num 9)) false false outC5 rfl rfl⟩

theorem applyReducers_noop (action : StdOpsAction) (o : JRef) :
    ∀ rs : List StateReducer,
      (∀ r ∈ rs, r action o = none ∨ r action o = some o) →
      applyReducers rs action o = o := by
  intro rs
  induction rs with
  | nil => intro _; rfl
  | cons r rs ih =>
    intro hall
    have hr := hall r (by simp)
    have hrest : ∀ r2 ∈ rs, r2 action o = none ∨ r2 action o = some o :=
      fun r2 hm => hall r2 (by simp [hm])
    unfold applyReducers at ih ⊢
    simp only [List.foldl_cons]
    rcases hr with h | h
    · rw [h]
      exact ih hrest
    · rw [h]
      exact ih hrest

/-- **C8**: a dispatch in which every reducer returns the no-change sentinel
or its incoming state object unchanged leaves the store's state object (and
value) untouched and emits nothing — the store commits and emits only when the
pipeline's final state is a different object from the clone it started with. -/
theorem c8_noop_dispatch (store : ActionStore) (action : StdOpsAction)
    (hall : ∀ r ∈ store.reducers,
      r action ⟨store.nextId, store.state.val⟩ = none ∨
      r action ⟨store.nextId, store.state.val⟩ = some ⟨store.nextId, store.state.val⟩) :
    (dispatch store action).1.state = store.state ∧ (dispatch store action).2 = [] := by
  have hnoop := applyReducers_noop action ⟨store.nextId, store.state.val⟩ store.reducers hall
  unfold dispatch
  simp only [hnoop]
  simp

/-- Witness for C8 at the `remove:['missingKey']` scenario of the claim. -/
theorem c8_noop_dispatch_witness :
    (∀ r ∈ storeC8.reducers,
      r actC8 ⟨storeC8.nextId, storeC8.state.val⟩ = none ∨
      r actC8 ⟨storeC8.nextId, storeC8.state.val⟩ = some ⟨storeC8.nextId, storeC8.state.val⟩) ∧
    (dispatch storeC8 actC8).1.state = storeC8.state ∧ (dispatch storeC8 actC8).2 = [] := by
  have hall : ∀ r ∈ storeC8.reducers,
      r actC8 ⟨storeC8.nextId, storeC8.state.val⟩ = none ∨
      r actC8 ⟨storeC8.nextId, storeC8.state.val⟩ = some ⟨storeC8.nextId, storeC8.state.val⟩ := by
    intro r hr
    have hr2 : r = standardOpsReducer := by simpa [storeC8] using hr
    subst hr2
    left
    rfl
  exact ⟨hall, c8_noop_dispatch storeC8 actC8 hall⟩

/-- **C7** (counterexample): the path `a//[]` contains the bare `[]`
component, yet resolution succeeds without any error — the empty component
after `a` breaks the traversal loop before `[]` is ever parsed. -/
theorem c7_bare_array_after_empty_not_thrown :
    (jsSplit "a//[]" '/').contains "[]" = true ∧
    isBareArrayComponent "[]" = true ∧
    resIsOk (getDataByPath (.obj []) "a//[]" id) = true ∧
    isUnnamedArrayRes (getDataByPath (.obj []) "a//[]" id) = false := by
  refine ⟨by decide, rfl, rfl, rfl⟩



theorem jsSetProp_error_typeFault : ∀ (v : JVal) (k : String) (x : JVal) (e : RErr),
    jsSetProp v k x = .error e → ∃ m, e = .typeFault m := by
  intro v k x e h
  cases v with
  | arr xs =>
    simp only [jsSetProp] at h
    cases hk : jsKeyToNat k with
    | some i => rw [hk] at h; simp at h
    | none =>
      rw [hk] at h
      simp only [Except.error.injEq] at h
      exact ⟨_, h.symm⟩
  | obj fs => simp [jsSetProp] at h
  | null => simp only [jsSetProp, Except.error.injEq] at h; exact ⟨_, h.symm⟩
  | undefined => simp only [jsSetProp, Except.error.injEq] at h; exact ⟨_, h.symm⟩
  | bool b => simp only [jsSetProp, Except.error.injEq] at h; exact ⟨_, h.symm⟩
  | num n => simp only [jsSetProp, Except.error.injEq] at h; exact ⟨_, h.symm⟩
  | str s => simp only [jsSetProp, Except.error.injEq] at h; exact ⟨_, h.symm⟩

theorem stepCreate_error_typeFault (cur : JVal) (pc : PathComponent) (e : RErr)
    (h : stepCreate cur pc = .error e) : ∃ m, e = .typeFault m := by
  unfold stepCreate at h
  split at h
  · exact jsSetProp_error_typeFault _ _ _ _ h
  · exact Except.noConfusion h

theorem stepEnsureKey_error_typeFault (target : JVal) (k : String) (e : RErr)
    (h : stepEnsureKey target k = .error e) : ∃ m, e = .typeFault m := by
  unfold stepEnsureKey at h
  split at h
  · exact jsSetProp_error_typeFault _ _ _ _ h
  · exact Except.noConfusion h



theorem resolveStepA_classify (fp : String) (recurse : JVal → Except RErr (JVal × JVal))
    (c : String) (cur : JVal)
    (hh : isTypeFaultRes (resolveStepA fp recurse c cur) = false) :
    (isBareArrayComponent c = true ∧
      isUnnamedArrayRes (resolveStepA fp recurse c cur) = true) ∨
    (isBareArrayComponent c = false ∧ ∃ child,
      isTypeFaultRes (recurse child) = false ∧
      isUnnamedArrayRes (resolveStepA fp recurse c cur) = isUnnamedArrayRes (recurse child)) := by
  unfold resolveStepA at hh ⊢
  by_cases hbare : (parsePathComponent c).name = "" ∧ (parsePathComponent c).isArray = true
  · left
    constructor
    · simp [isBareArrayComponent, hbare.1, hbare.2]
    · rw [if_pos hbare]
      rfl
  · have hb : isBareArrayComponent c = false := by
      unfold isBareArrayComponent
      by_cases h1 : (parsePathComponent c).name = ""
      · have h2 : (parsePathComponent c).isArray = false := by
          cases h3 : (parsePathComponent c).isArray
          · rfl
          · exact absurd ⟨h1, h3⟩ hbare
        simp [h1, h2]
      · simp [h1]
    refine Or.inr ⟨hb, ?_⟩
    rw [if_neg hbare] at hh ⊢
    cases hcr : stepCreate cur (parsePathComponent c) with
    | error e =>
      simp only [hcr] at hh
      obtain ⟨m, hm⟩ := stepCreate_error_typeFault _ _ _ hcr
      subst hm
      simp [isTypeFaultRes] at hh
    | ok cur1 =>
      simp only [hcr] at hh ⊢
      by_cases hiarr : (parsePathComponent c).isArray = true
      · simp only [if_pos hiarr] at hh ⊢
        cases hidx : (parsePathComponent c).index with
        | some i =>
          simp only [hidx] at hh ⊢
          split at hh
          · rename_i e heq
            obtain ⟨m, hm⟩ := jsSetProp_error_typeFault _ _ _ _ heq
            subst hm
            simp [isTypeFaultRes] at hh
          · rename_i target1 heq
            split at hh
            · rename_i e heq2
              exact ⟨jsGetProp target1 (toString i), by rw [heq2]; exact hh, by rw [heq2]⟩
            · rename_i child leaf heq2
              split at hh
              · rename_i e heq3
                obtain ⟨m, hm⟩ := jsSetProp_error_typeFault _ _ _ _ heq3
                subst hm
                simp [isTypeFaultRes] at hh
              · rename_i target2 heq3
                split at hh
                · rename_i e heq4
                  obtain ⟨m, hm⟩ := jsSetProp_error_typeFault _ _ _ _ heq4
                  subst hm
                  simp [isTypeFaultRes] at hh
                · rename_i cur2 heq4
                  exact ⟨jsGetProp target1 (toString i),
                    by simp [heq2, isTypeFaultRes], by simp [heq2, isUnnamedArrayRes]⟩
        | none =>
          simp only [hidx] at hh ⊢
          split at hh
          · rename_i xs heq
            split at hh
            · rename_i e heq2
              exact ⟨JVal.obj [], by rw [heq2]; exact hh, by rw [heq2]⟩
            · rename_i child leaf heq2
              split at hh
              · rename_i e heq3
                obtain ⟨m, hm⟩ := jsSetProp_error_typeFault _ _ _ _ heq3
                subst hm
                simp [isTypeFaultRes] at hh
              · rename_i cur2 heq3
                exact ⟨JVal.obj [],
                  by simp [heq2, isTypeFaultRes], by simp [heq2, isUnnamedArrayRes]⟩
          · rename_i x hne
            simp [isTypeFaultRes] at hh
      · simp only [if_neg hiarr] at hh ⊢
        cases hkey2 : (parsePathComponent c).key with
        | some k =>
          simp only [hkey2] at hh ⊢
          split at hh
          · rename_i e heq
            obtain ⟨m, hm⟩ := stepEnsureKey_error_typeFault _ _ _ heq
            subst hm
            simp [isTypeFaultRes] at hh
          · rename_i target1 heq
            split at hh
            · rename_i e heq2
              exact ⟨jsGetProp target1 k, by rw [heq2]; exact hh, by rw [heq2]⟩
            · rename_i child leaf heq2
              split at hh
              · rename_i e heq3
                obtain ⟨m, hm⟩ := jsSetProp_error_typeFault _ _ _ _ heq3
                subst hm
                simp [isTypeFaultRes] at hh
              · rename_i target2 heq3
                split at hh
                · rename_i e heq4
                  by_cases hnm : (parsePathComponent c).name = ""
                  · rw [if_pos hnm] at heq4
                    exact Except.noConfusion heq4
                  · rw [if_neg hnm] at heq4
                    obtain ⟨m, hm⟩ := jsSetProp_error_typeFault _ _ _ _ heq4
                    subst hm
                    simp [isTypeFaultRes] at hh
                · rename_i cur2 heq4
                  exact ⟨jsGetProp target1 k,
                    by simp [heq2, isTypeFaultRes], by simp [heq2, isUnnamedArrayRes]⟩
        | none =>
          simp only [hkey2] at hh ⊢
          split at hh
          · rename_i e heq
            refine ⟨if (parsePathComponent c).name = "" then cur1
              else jsGetProp cur1 (parsePathComponent c).name, ?_, ?_⟩
            · rw [heq]; exact hh
            · rw [heq]
          · rename_i child leaf heq
            split at hh
            · rename_i e heq2
              by_cases hnm : (parsePathComponent c).name = ""
              · rw [if_pos hnm] at heq2
                exact Except.noConfusion heq2
              · rw [if_neg hnm] at heq2
                obtain ⟨m, hm⟩ := jsSetProp_error_typeFault _ _ _ _ heq2
                subst hm
                simp [isTypeFaultRes] at hh
            · rename_i cur2 heq2
              refine ⟨if (parsePathComponent c).name = "" then cur1
                else jsGetProp cur1 (parsePathComponent c).name, ?_, ?_⟩
              · simp [heq, isTypeFaultRes]
              · simp [heq, isUnnamedArrayRes]



theorem resolve_unnamed_classify (fp : String) (fn : JVal → JVal) :
    ∀ (comps : List String) (cur : JVal),
      isTypeFaultRes (resolveComps fp fn comps cur) = false →
      isUnnamedArrayRes (resolveComps fp fn comps cur) =
        (comps.takeWhile (fun c => c ≠ "")).any isBareArrayComponent := by
  intro comps
  induction comps with
  | nil => intro cur hh; rfl
  | cons c rest ih =>
    intro cur hh
    by_cases hc0 : c = ""
    · subst hc0
      have hred : resolveComps fp fn ("" :: rest) cur = .ok (fn cur, fn cur) := by
        simp [resolveComps]
      rw [hred]
      rfl
    · by_cases hc1 : c = "."
      · subst hc1
        have hred : resolveComps fp fn ("." :: rest) cur = resolveComps fp fn rest cur := by
          simp [resolveComps]
        rw [hred] at hh ⊢
        rw [ih cur hh]
        have hdot : isBareArrayComponent "." = false := rfl
        simp [List.takeWhile_cons, List.any_cons, hdot]
      · have hred : resolveComps fp fn (c :: rest) cur =
            resolveStepA fp (fun child => resolveComps fp fn rest child) c cur := by
          simp [resolveComps, hc0, hc1]
        rw [hred] at hh ⊢
        rcases resolveStepA_classify fp _ c cur hh with ⟨hbt, he⟩ | ⟨hbf, child, hcf, heq⟩
        · rw [he]
          simp [List.takeWhile_cons, hc0, List.any_cons, hbt]
        · rw [heq, ih child hcf]
          simp [List.takeWhile_cons, hc0, List.any_cons, hbf]

/-- **C7** (amended): provided resolution does not hit a strict-mode type
fault, `getDataByPath` throws the unnamed-array grammar error iff the path
contains an empty-name array-marked component (`[]`/`[index]`) among the
components before the path's first empty component (an empty component ends
the walk early); equivalently, under the same proviso resolution succeeds iff
no such component is traversed — every other missing intermediate node is
auto-created rather than an error. -/
theorem c7_unnamed_array_error_iff (root : JVal) (path : String) (fn : JVal → JVal)
    (hnf : isTypeFaultRes (getDataByPath root path fn) = false) :
    (isUnnamedArrayRes (getDataByPath root path fn) = true ↔
      hasBareArrayBeforeEmpty path = true) ∧
    (resIsOk (getDataByPath root path fn) = true ↔
      hasBareArrayBeforeEmpty path = false) := by
  have hmain : isUnnamedArrayRes (getDataByPath root path fn) =
      hasBareArrayBeforeEmpty path :=
    resolve_unnamed_classify path fn (jsSplit path '/') root hnf
  constructor
  · rw [hmain]
  · cases hres : getDataByPath root path fn with
    | ok p =>
      rw [hres] at hmain
      simp only [isUnnamedArrayRes] at hmain
      simp [resIsOk, ← hmain]
    | error e =>
      cases e with
      | typeFault m => rw [hres] at hnf; simp [isTypeFaultRes] at hnf
      | unnamedArray a b =>
        rw [hres] at hmain
        simp only [isUnnamedArrayRes] at hmain
        simp [resIsOk, ← hmain]

/-- Witness for C7 at root `{}` and path `x/[]`. -/
theorem c7_unnamed_array_error_iff_witness :
    isTypeFaultRes (getDataByPath (.obj []) "x/[]" id) = false ∧
    ((isUnnamedArrayRes (getDataByPath (.obj []) "x/[]" id) = true ↔
        hasBareArrayBeforeEmpty "x/[]" = true) ∧
      (resIsOk (getDataByPath (.obj []) "x/[]" id) = true ↔
        hasBareArrayBeforeEmpty "x/[]" = false)) :=
  ⟨rfl, c7_unnamed_array_error_iff (.obj []) "x/[]" id rfl⟩

end FormState
